import Mathlib

/-!
Verification of the NISPS interactive-machine-learning core
(`nisps-core` headers together with the MLP / Node / Layer / Dataset
sources of the repository), as a shallow embedding over the reals.

Floating-point arithmetic is idealised as real arithmetic; `std::sqrt`
and `std::exp` become `Real.sqrt` and `Real.exp`.  Randomness
(`std::random_device` driven draws) is made explicit: every operation
that consumes a random draw takes that draw as an argument.
-/

namespace Nisps

/-! ### Activation functions, embedded from `nisps/utils.hpp` -/

noncomputable def sigmoid (x : ℝ) : ℝ := 1 / (1 + Real.exp (-x))

noncomputable def kReLUSlope : ℝ := 1 / 100

noncomputable def relu (x : ℝ) : ℝ := if x > 0 then x else kReLUSlope * x

noncomputable def deriv_relu (x : ℝ) : ℝ := if x > 0 then 1 else kReLUSlope

noncomputable def hardsigmoid (x : ℝ) : ℝ :=
  if x ≤ -3 then 0 else if x ≥ 3 then 1 else (x + 3) * (1 / 6)

noncomputable def deriv_hardsigmoid (x : ℝ) : ℝ :=
  if x > -3 ∧ x < 3 then 1 / 6 else 0

noncomputable def hardtanh (x : ℝ) : ℝ :=
  if x ≤ -1 then -1 else if x ≥ 1 then 1 else x

noncomputable def deriv_hardtanh (x : ℝ) : ℝ :=
  if x > -1 ∧ x < 1 then 1 else 0

noncomputable def hardswish (x : ℝ) : ℝ :=
  if x ≤ -3 then 0 else if x ≥ 3 then x else x * (x + 3) / 6

noncomputable def deriv_hardswish (x : ℝ) : ℝ :=
  if x ≤ -3 then 0 else if x ≥ 3 then 1 else (2 * x + 3) / 6

/-! ### Node, embedded from `node.hpp` -/

structure Node where
  weights : List ℝ
  bias : ℝ
  squared_gradient_avg : List ℝ
  bias_squared_gradient_avg : ℝ
  gradient_accumulator : List ℝ
  bias_gradient_accumulator : ℝ

/-- `rmsPropDecay` of `node.hpp` (`0.9f`). -/
noncomputable def rmsPropDecay : ℝ := 9 / 10

/-- `rmsPropDecayInv` of `node.hpp` (`0.1f`). -/
noncomputable def rmsPropDecayInv : ℝ := 1 / 10

/-- `rmsPropEpsilon` of `node.hpp` (`1e-6f`). -/
noncomputable def rmsPropEpsilon : ℝ := 1 / 1000000

/-- `maxSquaredGradAvg` of `Node::ApplyAccumulatedGradients` (`1e6`). -/
noncomputable def maxSquaredGradAvg : ℝ := 1000000

/-- `maxAdjustedLR` of `Node::ApplyAccumulatedGradients` (`1.0`). -/
noncomputable def maxAdjustedLR : ℝ := 1

/-- `gradientClipValue` of `Node::ApplyAccumulatedGradients` (`10.0`). -/
noncomputable def gradientClipValue : ℝ := 10

/-- `std::max(std::min(gradient, gradientClipValue), -gradientClipValue)`. -/
noncomputable def clipGradient (g : ℝ) : ℝ :=
  max (min g gradientClipValue) (-gradientClipValue)

/-- The squared-gradient running-average update of
`Node::ApplyAccumulatedGradients`, including the `1e6` ceiling. -/
noncomputable def nextSquaredAvg (sq g : ℝ) : ℝ :=
  min (rmsPropDecay * sq + rmsPropDecayInv * g * g) maxSquaredGradAvg

/-- The adjusted learning rate of `Node::ApplyAccumulatedGradients`,
including the `1.0` ceiling. -/
noncomputable def adjustedLearningRate (lr sq : ℝ) : ℝ :=
  min (lr / (Real.sqrt sq + rmsPropEpsilon)) maxAdjustedLR

/-- One loop iteration of `Node::ApplyAccumulatedGradients` for index `i`:
given `(w, sq, acc) = (m_weights[i], squared_gradient_avg[i],
m_gradient_accumulator[i])`, returns the new `(m_weights[i],
squared_gradient_avg[i])`; the accumulator is reset to `0`. -/
noncomputable def applyTriple (lr batch_size_inv w sq acc : ℝ) : ℝ × ℝ :=
  let g := clipGradient (acc * batch_size_inv)
  let sq2 := nextSquaredAvg sq g
  (w - adjustedLearningRate lr sq2 * g, sq2)

/-- The loop of `Node::ApplyAccumulatedGradients` over
`i < m_weights.size()`, walking the three parallel vectors.  (The C++
code indexes all three vectors by `i`; they have equal length by the
class invariant, so simultaneous structural recursion is faithful.) -/
noncomputable def applyLoop (lr batch_size_inv : ℝ) :
    List ℝ → List ℝ → List ℝ → List (ℝ × ℝ)
  | w :: ws, sq :: sqs, acc :: accs =>
      applyTriple lr batch_size_inv w sq acc :: applyLoop lr batch_size_inv ws sqs accs
  | _, _, _ => []

/-- `Node::ApplyAccumulatedGradients(learning_rate, batch_size_inv)`. -/
noncomputable def ApplyAccumulatedGradients (lr batch_size_inv : ℝ) (nd : Node) : Node :=
  let stepped := applyLoop lr batch_size_inv nd.weights nd.squared_gradient_avg
    nd.gradient_accumulator
  let bias_gradient := clipGradient (nd.bias_gradient_accumulator * batch_size_inv)
  let bias_sq := nextSquaredAvg nd.bias_squared_gradient_avg bias_gradient
  { weights := stepped.map Prod.fst
    bias := nd.bias - adjustedLearningRate lr bias_sq * bias_gradient
    squared_gradient_avg := stepped.map Prod.snd
    bias_squared_gradient_avg := bias_sq
    gradient_accumulator := stepped.map (fun _ => 0)
    bias_gradient_accumulator := 0 }

/-! ### Layer and MLP, embedded from `layer.hpp` and the MLP source -/

/-- The closed set of activation identifiers (`ACTIVATION_FUNCTIONS`)
used by the IML facade. -/
inductive ActKind where
  | SIGMOID
  | RELU
  deriving DecidableEq

/-- The activation registry of `utils.hpp`, restricted to the
identifiers the IML constructor uses. -/
noncomputable def actFun : ActKind → (ℝ → ℝ)
  | ActKind.SIGMOID => sigmoid
  | ActKind.RELU => relu

/-- The loss identifiers (`loss::LOSS_FUNCTIONS`). -/
inductive LossKind where
  | LOSS_MSE
  | LOSS_CATEGORICAL_CROSSENTROPY
  deriving DecidableEq

structure LayerModel where
  nodes : List Node
  activation : ActKind

/-- `Node::GetInputInnerProdWithWeights`: `sum_j input[j] * m_weights[j] + m_bias`.
(The C++ loop runs over `input.size()` positions; input and weight vector
have equal length whenever the call is defined, so `zipWith` is faithful.) -/
noncomputable def innerProd (nd : Node) (input : List ℝ) : ℝ :=
  (List.zipWith (fun x w => x * w) input nd.weights).sum + nd.bias

/-- `Layer::GetOutputAfterActivationFunction`: one output per node,
through the activation function shared by the layer. -/
noncomputable def layerForward (L : LayerModel) (input : List ℝ) : List ℝ :=
  L.nodes.map (fun nd => actFun L.activation (innerProd nd input))

/-- `utils::Softmax`: exponentiate and normalise.  (The `±15` clamp in the
source is computed into a local variable that is then not used by the
`std::exp` call, so it has no effect.) -/
noncomputable def Softmax (output : List ℝ) : List ℝ :=
  let exp_total := (output.map Real.exp).sum
  output.map (fun x => Real.exp x / exp_total)

structure MLPModel where
  num_inputs : Nat
  num_outputs : Nat
  layers : List LayerModel
  loss_function_type : LossKind

/-- The layer loop of `MLP::GetOutput`: feed the input through the
layers in order. -/
noncomputable def forwardLayers (layers : List LayerModel) (input : List ℝ) : List ℝ :=
  layers.foldl (fun acc L => layerForward L acc) input

/-- `MLP::GetOutput(input, output, nullptr, for_inference)`.  On a wrong
input width the C++ function returns early without writing `*output`;
this is modelled as `none`.  Otherwise the result written to `*output`
is returned as `some`. -/
noncomputable def GetOutput (m : MLPModel) (input : List ℝ)
    (for_inference : Bool := true) : Option (List ℝ) :=
  if input.length ≠ m.num_inputs then none
  else
    let out := forwardLayers m.layers input
    if for_inference ∧ m.loss_function_type = LossKind.LOSS_CATEGORICAL_CROSSENTROPY ∧
        1 < out.length then
      some (Softmax out)
    else some out

/-- What the caller of `MLP::GetOutput` observes on its output buffer:
the buffer is overwritten on success and left untouched on the
early-return path (the function is `void`; there is no other channel
back to the caller). -/
noncomputable def GetOutputInto (m : MLPModel) (input buffer : List ℝ) : List ℝ :=
  match GetOutput m input with
  | some o => o
  | none => buffer

/-- The calling convention of `IML::process` / `IML::save_example` /
`IML::train`: a fresh zero-initialised `std::vector<Float> output(n_outputs_)`
is passed to `MLP::GetOutput` and then assigned to `output_state_`. -/
noncomputable def runInference (m : MLPModel) (input : List ℝ) (n_outputs : Nat) : List ℝ :=
  GetOutputInto m input (List.replicate n_outputs 0)

/-- `List.map` with the element index, defined by structural recursion
so that the C++ `for` loops over `m_layers` / `m_nodes` (which never
change the container sizes) are mirrored exactly. -/
def mapFrom (f : Nat → α → β) : Nat → List α → List β
  | _, [] => []
  | n, a :: l => f n a :: mapFrom f (n + 1) l

def mapWithIndex (f : Nat → α → β) (l : List α) : List β := mapFrom f 0 l

/-- `MLP::GetWeights`: the full layer → node → weight structure (weights
only; biases are not part of `mlp_weights`). -/
def getWeights (m : MLPModel) : List (List (List ℝ)) :=
  m.layers.map (fun L => L.nodes.map (fun nd => nd.weights))

/-- The node loop of `Layer::SetWeights`: `node.SetWeights(weights[node_i])`
for every node of the layer; the node count never changes.  (Reading
`weights[node_i]` past the end of the argument is undefined behaviour in
the C++; the model supplies `[]` there.) -/
def setNodesWeights : List Node → List (List ℝ) → List Node
  | [], _ => []
  | nd :: nds, [] => { nd with weights := [] } :: setNodesWeights nds []
  | nd :: nds, w :: ws => { nd with weights := w } :: setNodesWeights nds ws

/-- The layer loop of `MLP::SetWeights`: `SetLayerWeights(n, weights[n])`
for every layer; the layer count never changes. -/
def setLayersWeights : List LayerModel → List (List (List ℝ)) → List LayerModel
  | [], _ => []
  | L :: Ls, [] => { L with nodes := setNodesWeights L.nodes [] } :: setLayersWeights Ls []
  | L :: Ls, W :: Ws => { L with nodes := setNodesWeights L.nodes W } :: setLayersWeights Ls Ws

/-- `MLP::SetWeights`. -/
def setWeights (m : MLPModel) (W : List (List (List ℝ))) : MLPModel :=
  { m with layers := setLayersWeights m.layers W }

/-- `MLP::DrawWeights(scale)`: every weight slot `[n][k][j]` is
overwritten with a fresh random draw (`gen() * scale`), supplied here by
the oracle `fresh`; biases and optimiser state are untouched. -/
def drawWeights (m : MLPModel) (fresh : Nat → Nat → Nat → ℝ) : MLPModel :=
  { m with
    layers := mapWithIndex (fun n L =>
      { L with nodes := mapWithIndex (fun k nd =>
          { nd with weights := mapWithIndex (fun j _ => fresh n k j) nd.weights }) L.nodes })
      m.layers }

/-- Modelled abstraction of `MLP::Train`: backpropagation mutates the
parameters of each node in place (weights, bias, optimiser state) and
never changes the number of layers, the number of nodes of a layer, or
the activation function of a layer.  The numeric effect on each node is
abstracted by the oracle `f` (indexed by layer and node). -/
def mapNodes (m : MLPModel) (f : Nat → Nat → Node → Node) : MLPModel :=
  { m with
    layers := mapWithIndex (fun n L =>
      { L with nodes := mapWithIndex (fun k nd => f n k nd) L.nodes }) m.layers }

/-! ### Dataset, embedded from `dataset.hpp` / `dataset_impl.hpp` -/

inductive ForgetMode where
  | FIFO
  | RANDOM_EQUAL
  | RANDOM_OLDER
  deriving DecidableEq

structure Dataset where
  features : List (List ℝ)
  labels : List (List ℝ)
  timestamps : List Nat
  current_timestamp : Nat
  max_examples : Nat
  replay_memory_enabled : Bool
  forget_mode : ForgetMode
  data_size : Nat
  output_size : Nat

/-- `Dataset::kMax_examples`. -/
def kMax_examples : Nat := 100

/-- The default-constructed `Dataset`: `_InitSizes()` and the default
member initialisers (`replay_memory_enabled_ = false`,
`forget_mode_ = FIFO`, `current_timestamp_ = 0`,
`max_examples_ = kMax_examples`). -/
def emptyDataset : Dataset :=
  { features := []
    labels := []
    timestamps := []
    current_timestamp := 0
    max_examples := kMax_examples
    replay_memory_enabled := false
    forget_mode := ForgetMode.FIFO
    data_size := 0
    output_size := 0 }

/-- `Dataset::_AdjustSizes`. -/
def adjustSizes (ds : Dataset) : Dataset :=
  match ds.features with
  | [] => ds
  | f :: _ =>
      { ds with data_size := f.length
                output_size := ds.labels.headI.length }

/-- The cumulative-weight walk of the `RANDOM_OLDER` branch of
`Dataset::RemoveOneExcessExample`: `index_to_remove` starts at `0`;
`cumulative` is accumulated and the first `i` with `r < cumulative` is
taken; when the loop falls through the initial `0` remains. -/
def selectIndexAux (r : Nat) : List Nat → Nat → Nat → Nat
  | [], _, _ => 0
  | w :: ws, i, cumulative =>
      if r < cumulative + w then i else selectIndexAux r ws (i + 1) (cumulative + w)

def selectIndex (weights : List Nat) (r : Nat) : Nat := selectIndexAux r weights 0 0

/-- The age weights of `RANDOM_OLDER`: `age_i = current_timestamp_ - t_i`. -/
def ageWeights (ds : Dataset) : List Nat :=
  ds.timestamps.map (fun t => ds.current_timestamp - t)

/-- The index chosen by `Dataset::RemoveOneExcessExample`, as a function
of the one uniform draw the C++ makes on the taken branch: for
`RANDOM_EQUAL`, and for `RANDOM_OLDER` with zero total weight, `draw` is
uniform on `[0, size)`; for `RANDOM_OLDER` with positive total weight it
is uniform on `[0, total_weight)`. -/
def evictionIndex (ds : Dataset) (draw : Nat) : Nat :=
  match ds.forget_mode with
  | ForgetMode.FIFO => 0
  | ForgetMode.RANDOM_EQUAL => draw
  | ForgetMode.RANDOM_OLDER =>
      let ws := ageWeights ds
      if ws.sum = 0 then draw else selectIndex ws draw

/-- `Dataset::RemoveOneExcessExample`: erase the chosen index from the
three parallel vectors. -/
def RemoveOneExcessExample (ds : Dataset) (draw : Nat) : Dataset :=
  let idx := evictionIndex ds draw
  { ds with features := ds.features.eraseIdx idx
            labels := ds.labels.eraseIdx idx
            timestamps := ds.timestamps.eraseIdx idx }

/-- The append-and-stamp tail of `Dataset::Add` (push to the three
vectors, `timestamp = current_timestamp_++`, then `_AdjustSizes`). -/
def appendExample (ds : Dataset) (feature label : List ℝ) : Dataset :=
  adjustSizes
    { ds with features := ds.features ++ [feature]
              labels := ds.labels ++ [label]
              timestamps := ds.timestamps ++ [ds.current_timestamp]
              current_timestamp := ds.current_timestamp + 1 }

/-- `Dataset::Add(feature, label)`, with its return value. -/
def Add (ds : Dataset) (feature label : List ℝ) (draw : Nat) : Bool × Dataset :=
  if 0 < ds.data_size ∧
      (feature.length ≠ ds.data_size ∨ label.length ≠ ds.output_size) then
    (false, ds)
  else if ds.max_examples ≤ ds.features.length then
    if ds.replay_memory_enabled then
      (true, appendExample (RemoveOneExcessExample ds draw) feature label)
    else
      (false, ds)
  else
    (true, appendExample ds feature label)

/-- `Dataset::Clear`. -/
def Clear (ds : Dataset) : Dataset :=
  { ds with features := []
            labels := []
            timestamps := []
            current_timestamp := 0
            data_size := 0
            output_size := 0 }

/-- `Dataset::AddBias`. -/
def AddBias (features : List (List ℝ)) (with_bias : Bool) : List (List ℝ) :=
  if with_bias then features.map (fun f => f ++ [1]) else features

/-- `Dataset::GetFeatures`. -/
def GetFeatures (ds : Dataset) (with_bias : Bool) : List (List ℝ) :=
  AddBias ds.features with_bias

/-! ### IML facade, embedded from `iml.hpp` / `iml_impl.hpp` -/

inductive Mode where
  | Inference
  | Training
  deriving DecidableEq

/-- The per-node effect of one `MLP::Train` call (see `mapNodes`). -/
abbrev TrainOracle := Nat → Nat → Node → Node

structure IMLState where
  n_inputs : Nat
  n_outputs : Nat
  max_iterations : Nat
  learning_rate : ℝ
  convergence_threshold : ℝ
  mode : Mode
  input_updated : Bool
  perform_inference : Bool
  input_state : List ℝ
  output_state : List ℝ
  dataset : Dataset
  mlp : MLPModel
  stored_weights : List (List (List ℝ))
  weights_randomised : Bool
  logs : List String

/-- A `Node` as built by the `Node` constructor with
`use_constant_weight_init = false`: weights drawn by the oracle `w0`,
bias `0`, optimiser averages zeroed, accumulators at their default. -/
noncomputable def mkNode (w0 : Nat → Nat → Nat → ℝ) (n k num_inputs : Nat) : Node :=
  { weights := (List.range num_inputs).map (w0 n k)
    bias := 0
    squared_gradient_avg := List.replicate num_inputs 0
    bias_squared_gradient_avg := 0
    gradient_accumulator := []
    bias_gradient_accumulator := 0 }

/-- A `Layer` as built by the `Layer` constructor. -/
noncomputable def mkLayer (w0 : Nat → Nat → Nat → ℝ)
    (n num_inputs_per_node num_nodes : Nat) (act : ActKind) : LayerModel :=
  { nodes := (List.range num_nodes).map (fun k => mkNode w0 n k num_inputs_per_node)
    activation := act }

/-- The layer-construction loop of `MLP::CreateMLP`: one layer per
adjacent pair of `layers_nodes`, with the matching activation. -/
noncomputable def buildLayers (w0 : Nat → Nat → Nat → ℝ) :
    Nat → Nat → List Nat → List ActKind → List LayerModel
  | n, prev, sz :: szs, a :: acts =>
      mkLayer w0 n prev sz a :: buildLayers w0 (n + 1) sz szs acts
  | _, _, _, _ => []

/-- The `MLP` built by the `IML` constructor: layer sizes
`(n_inputs + 1) :: hidden ++ [n_outputs]`, activations `RELU` for each
hidden layer and `SIGMOID` for the output layer, loss `LOSS_MSE`. -/
noncomputable def initMLP (w0 : Nat → Nat → Nat → ℝ)
    (n_inputs n_outputs : Nat) (hidden : List Nat) : MLPModel :=
  { num_inputs := n_inputs + 1
    num_outputs := n_outputs
    layers := buildLayers w0 0 (n_inputs + 1) (hidden ++ [n_outputs])
      (hidden.map (fun _ => ActKind.RELU) ++ [ActKind.SIGMOID])
    loss_function_type := LossKind.LOSS_MSE }

/-- The `IML` constructor. -/
noncomputable def initIML (w0 : Nat → Nat → Nat → ℝ)
    (n_inputs n_outputs : Nat) (hidden : List Nat)
    (max_iterations : Nat) (learning_rate convergence_threshold : ℝ) : IMLState :=
  { n_inputs := n_inputs
    n_outputs := n_outputs
    max_iterations := max_iterations
    learning_rate := learning_rate
    convergence_threshold := convergence_threshold
    mode := Mode.Inference
    input_updated := false
    perform_inference := true
    input_state := List.replicate n_inputs (1 / 2)
    output_state := List.replicate n_outputs 0
    dataset := emptyDataset
    mlp := initMLP w0 n_inputs n_outputs hidden
    stored_weights := []
    weights_randomised := false
    logs := [] }

/-- The ingress clamp of `IML::set_input`:
`if (value < 0) value = 0; if (value > 1) value = 1;`. -/
noncomputable def clampUnit (v : ℝ) : ℝ :=
  if v < 0 then 0 else if v > 1 then 1 else v

/-- `IML::set_input(index, value)`. -/
noncomputable def set_input (st : IMLState) (index : Nat) (value : ℝ) : IMLState :=
  if st.n_inputs ≤ index then st
  else
    { st with input_state := st.input_state.set index (clampUnit value)
              input_updated := true }

/-- The loop of `IML::set_inputs(values, count)`:
`set_input(i, values[i])` for `i < count` and `i < n_inputs_`. -/
noncomputable def set_inputsAux : IMLState → Nat → List ℝ → IMLState
  | st, _, [] => st
  | st, i, v :: vs =>
      if i < st.n_inputs then set_inputsAux (set_input st i v) (i + 1) vs else st

noncomputable def set_inputs (st : IMLState) (values : List ℝ) : IMLState :=
  set_inputsAux st 0 values

/-- Modelled from the spec: `set_output(j, v)` appears in the
public API documentation of the repository and in demo callers, but its
implementation is not among the source files; the spec describes it as
clamp-and-store into `output_state`. -/
noncomputable def set_output (st : IMLState) (index : Nat) (value : ℝ) : IMLState :=
  { st with output_state := st.output_state.set index (clampUnit value) }

/-- `IML::process()`. -/
noncomputable def process (st : IMLState) : IMLState :=
  if st.perform_inference = false ∨ st.input_updated = false then st
  else
    { st with output_state := runInference st.mlp (st.input_state ++ [1]) st.n_outputs
              input_updated := false }

/-- `IML::save_example()`: the interactive two-step protocol, with the
dataset random draw made explicit. -/
noncomputable def save_example (st : IMLState) (draw : Nat) : IMLState :=
  if st.perform_inference then
    { st with perform_inference := false
              logs := st.logs ++ ["Move to desired output position..."] }
  else
    { st with dataset := (Add st.dataset st.input_state st.output_state draw).2
              perform_inference := true
              output_state := runInference st.mlp (st.input_state ++ [1]) st.n_outputs
              logs := st.logs ++ ["Example saved."] }

/-- `IML::clear_dataset()`. -/
noncomputable def clear_dataset (st : IMLState) : IMLState :=
  if st.mode = Mode.Training then
    { st with dataset := Clear st.dataset
              logs := st.logs ++ ["Dataset cleared."] }
  else st

/-- `IML::randomise_weights()`, with the fresh random weights made
explicit as the oracle `fresh`. -/
noncomputable def randomise_weights (st : IMLState)
    (fresh : Nat → Nat → Nat → ℝ) : IMLState :=
  if st.mode = Mode.Training then
    let mlp2 := drawWeights st.mlp fresh
    { st with stored_weights := getWeights st.mlp
              mlp := mlp2
              weights_randomised := true
              output_state := runInference mlp2 (st.input_state ++ [1]) st.n_outputs
              logs := st.logs ++ ["Weights randomised."] }
  else st

/-- The restore prologue of `IML::train()`: put the snapshotted weights
back if they were randomised and clear the flag. -/
noncomputable def trainRestored (st : IMLState) : IMLState :=
  if st.weights_randomised then
    { st with mlp := setWeights st.mlp st.stored_weights
              weights_randomised := false }
  else st

/-- The body of `IML::train()` after the restore prologue: skip on an
empty dataset, otherwise run `MLP::Train` (abstracted by the oracle `f`,
see `mapNodes`) followed by one inference pass. -/
noncomputable def trainCore (f : TrainOracle) (st1 : IMLState) : IMLState :=
  if (GetFeatures st1.dataset true).isEmpty ∨ st1.dataset.labels.isEmpty then
    { st1 with logs := st1.logs ++ ["Empty dataset, skipping training."] }
  else
    let mlp2 := mapNodes st1.mlp f
    { st1 with mlp := mlp2
               output_state := runInference mlp2 (st1.input_state ++ [1]) st1.n_outputs
               logs := st1.logs ++ ["Training...", "Training complete."] }

/-- `IML::train()`. -/
noncomputable def trainIML (f : TrainOracle) (st : IMLState) : IMLState :=
  trainCore f (trainRestored st)

/-- `IML::set_mode(mode)`. -/
noncomputable def set_mode (f : TrainOracle) (m : Mode) (st : IMLState) : IMLState :=
  let st1 := if m = Mode.Inference ∧ st.mode = Mode.Training then trainIML f st else st
  { st1 with mode := m }

/-- One public IML operation, with every random draw it may consume
supplied as data. -/
inductive IMLOp where
  | setInput (i : Nat) (v : ℝ)
  | setInputs (vs : List ℝ)
  | setOutput (j : Nat) (v : ℝ)
  | procOp
  | saveExample (draw : Nat)
  | setModeOp (f : TrainOracle) (m : Mode)
  | clearData
  | randomise (fresh : Nat → Nat → Nat → ℝ)

noncomputable def stepOp (st : IMLState) : IMLOp → IMLState
  | IMLOp.setInput i v => set_input st i v
  | IMLOp.setInputs vs => set_inputs st vs
  | IMLOp.setOutput j v => set_output st j v
  | IMLOp.procOp => process st
  | IMLOp.saveExample d => save_example st d
  | IMLOp.setModeOp f m => set_mode f m st
  | IMLOp.clearData => clear_dataset st
  | IMLOp.randomise fr => randomise_weights st fr

noncomputable def runOps (st : IMLState) : List IMLOp → IMLState
  | [] => st
  | op :: ops => runOps (stepOp st op) ops

/-! ### Concrete instances used by witnesses and counterexamples -/

/-- The all-zero weight oracle. -/
noncomputable def wZero : Nat → Nat → Nat → ℝ := fun _ _ _ => 0

/-- The all-one weight oracle. -/
noncomputable def wOne : Nat → Nat → Nat → ℝ := fun _ _ _ => 1

/-- A freshly constructed engine with one input, one output, no hidden
layer (so a single sigmoid output layer of one node). -/
noncomputable def exIML : IMLState := initIML wZero 1 1 [] 1000 1 (1 / 100000)

/-- A train oracle that adds `1` to every weight of every node;
training with it is observable on `getWeights`. -/
noncomputable def fBump : TrainOracle :=
  fun _ _ nd => { nd with weights := nd.weights.map (fun w => w + 1) }

/-! ### C10 -/

/-- C10: `IML::set_input(index, value)` with `index >= n_inputs` returns
without any observable effect: the whole state (input vector, dirty
flag, log trace, everything) is unchanged. -/
theorem C10_set_input_out_of_range (st : IMLState) (index : Nat) (value : ℝ)
    (h : st.n_inputs ≤ index) : set_input st index value = st := by
  simp [set_input, h]

theorem C10_witness :
    exIML.n_inputs ≤ 5 ∧ set_input exIML 5 (3 / 4) = exIML :=
  ⟨by norm_num [exIML, initIML],
   C10_set_input_out_of_range exIML 5 (3 / 4) (by norm_num [exIML, initIML])⟩

/-! ### C9 -/

/-- A network built like the IML constructor builds it: `num_inputs = 2`. -/
noncomputable def exMLP : MLPModel := initMLP wZero 1 1 []

/-- C9 counterexample: with a wrong-width input, `MLP::GetOutput` leaves
the buffer of the caller exactly as it was and returns; the function is
`void`, so the returned buffer is everything the caller observes, and no
`ShapeMismatch` (or any other) error is surfaced — the call is
indistinguishable from not having been made. -/
theorem C9_counterexample :
    exMLP.num_inputs = 2 ∧
    GetOutputInto exMLP [1] [7] = [7] ∧
    GetOutputInto exMLP [1, 1, 1] [7] = [7] := by
  refine ⟨rfl, ?_, ?_⟩ <;> simp [GetOutputInto, GetOutput, exMLP, initMLP]

/-- C9 (amended): a forward-pass call whose input length differs from
`m_num_inputs` is a silent no-op for the caller: the output buffer is
returned unchanged (and the early return happens before any node is
touched, so the network is not mutated either); no error value is
surfaced, only a debug log line is printed. -/
theorem C9_amended_shape_mismatch (m : MLPModel) (input buffer : List ℝ)
    (h : input.length ≠ m.num_inputs) :
    GetOutputInto m input buffer = buffer := by
  simp [GetOutputInto, GetOutput, h]

theorem C9_witness :
    ([1, 1, 1] : List ℝ).length ≠ exMLP.num_inputs ∧
    GetOutputInto exMLP [1, 1, 1] [1 / 2] = [1 / 2] :=
  ⟨by norm_num [exMLP, initMLP],
   C9_amended_shape_mismatch exMLP [1, 1, 1] [1 / 2] (by norm_num [exMLP, initMLP])⟩

/-! ### C4 -/

/-- A dataset holding one example. -/
noncomputable def dsOne : Dataset := (Add emptyDataset [1 / 2] [1 / 2] 0).2

/-- An engine in Inference mode whose dataset is non-empty. -/
noncomputable def stC4 : IMLState := { exIML with mode := Mode.Inference, dataset := dsOne }

/-- The same engine in Training mode. -/
noncomputable def stC4T : IMLState := { stC4 with mode := Mode.Training }

/-- C4 counterexample: in Inference mode with a non-empty dataset,
`set_mode(Inference)` does not run training — the state is completely
unchanged — although running `IML::train` would observably change the
weights.  This contradicts the claim that every `set_mode(Inference)`
with a non-empty dataset trains afresh regardless of the current mode. -/
theorem C4_counterexample :
    stC4.dataset.features ≠ [] ∧
    set_mode fBump Mode.Inference stC4 = stC4 ∧
    getWeights (trainIML fBump stC4).mlp ≠ getWeights stC4.mlp := by
  refine ⟨?_, ?_, ?_⟩
  · simp [stC4, dsOne, Add, emptyDataset, appendExample, adjustSizes, kMax_examples]
  · simp [set_mode, stC4]
  · simp [trainIML, trainRestored, trainCore, stC4, exIML, initIML, dsOne, Add, emptyDataset, appendExample,
      adjustSizes, kMax_examples, GetFeatures, AddBias, mapNodes, mapWithIndex, mapFrom,
      getWeights, fBump, buildLayers, mkLayer, mkNode, List.range, List.range.loop,
      setWeights, wZero]
    norm_num [initMLP, buildLayers, mkLayer, mkNode, List.range, List.range.loop, wZero]

/-- C4 (amended): `set_mode(Inference)` runs training exactly when the
engine is currently in Training mode (the Training → Inference
transition); a `set_mode(Inference)` call made while already in
Inference mode is a complete no-op, whatever the dataset holds. -/
theorem C4_amended_train_on_transition (f : TrainOracle) (st : IMLState) :
    (st.mode = Mode.Training →
      set_mode f Mode.Inference st = { trainIML f st with mode := Mode.Inference }) ∧
    (st.mode = Mode.Inference → set_mode f Mode.Inference st = st) := by
  constructor
  · intro h
    simp [set_mode, h]
  · intro h
    obtain ⟨n1, n2, mi, lr, ct, mo, iu, pi, ist, ost, ds, mlp, sw, wr, lg⟩ := st
    have h2 : mo = Mode.Inference := h
    subst h2
    simp [set_mode]

theorem C4_witness :
    stC4.mode = Mode.Inference ∧ stC4T.mode = Mode.Training ∧
    set_mode fBump Mode.Inference stC4 = stC4 ∧
    set_mode fBump Mode.Inference stC4T =
      { trainIML fBump stC4T with mode := Mode.Inference } :=
  ⟨rfl, rfl, (C4_amended_train_on_transition fBump stC4).2 rfl,
   (C4_amended_train_on_transition fBump stC4T).1 rfl⟩

/-! ### C8 -/

/-- Transfer of a derivative along agreement on an open set. -/
theorem hasDerivAt_of_eqOn {f g : ℝ → ℝ} {d : ℝ} {s : Set ℝ} (hs : IsOpen s) {x : ℝ}
    (hx : x ∈ s) (hfg : ∀ y ∈ s, f y = g y) (hg : HasDerivAt g d x) : HasDerivAt f d x :=
  hg.congr_of_eventuallyEq (Filter.eventuallyEq_of_mem (hs.mem_nhds hx) hfg)

/-- C8 counterexample: the right-hand derivative of the registered ReLU
forward at its kink `0` is `1` (the function agrees with the identity on
`[0, ∞)`), but the registered derivative returns the leak slope
`kReLUSlope = 0.01` at `0`, not the limit from the right. -/
theorem C8_counterexample :
    HasDerivWithinAt relu 1 (Set.Ici (0 : ℝ)) 0 ∧
    deriv_relu 0 = kReLUSlope ∧ kReLUSlope ≠ 1 := by
  refine ⟨?_, by simp [deriv_relu], by norm_num [kReLUSlope]⟩
  refine (hasDerivWithinAt_id (0 : ℝ) (Set.Ici 0)).congr ?_ ?_
  · intro y hy
    rcases eq_or_lt_of_le (Set.mem_Ici.mp hy) with h | h
    · subst h; simp [relu]
    · simp [relu, h]
  · simp [relu]

/-- C8 (amended): each registered derivative is consistent with its
forward function on the interior of every piece, but at the kinks the
saturated-side value is used rather than uniformly the right-hand
derivative: at the ReLU kink `0` and at the lower kinks (`−3` for
HardSigmoid/HardSwish, `−1` for HardTanh) the returned value is the
left-hand derivative, while only at the upper kinks (`3`, `1`, `3`) it
coincides with the right-hand derivative. -/
theorem C8_amended_kink_convention (x : ℝ) :
    ((0 < x → HasDerivAt relu (deriv_relu x) x) ∧
     (x < 0 → HasDerivAt relu (deriv_relu x) x) ∧
     deriv_relu 0 = kReLUSlope ∧
     HasDerivWithinAt relu kReLUSlope (Set.Iic 0) 0) ∧
    ((-3 < x ∧ x < 3 → HasDerivAt hardsigmoid (deriv_hardsigmoid x) x) ∧
     (x < -3 → HasDerivAt hardsigmoid (deriv_hardsigmoid x) x) ∧
     (3 < x → HasDerivAt hardsigmoid (deriv_hardsigmoid x) x) ∧
     deriv_hardsigmoid (-3) = 0 ∧ deriv_hardsigmoid 3 = 0 ∧
     HasDerivWithinAt hardsigmoid 0 (Set.Iic (-3)) (-3) ∧
     HasDerivWithinAt hardsigmoid 0 (Set.Ici 3) 3) ∧
    ((-1 < x ∧ x < 1 → HasDerivAt hardtanh (deriv_hardtanh x) x) ∧
     (x < -1 → HasDerivAt hardtanh (deriv_hardtanh x) x) ∧
     (1 < x → HasDerivAt hardtanh (deriv_hardtanh x) x) ∧
     deriv_hardtanh (-1) = 0 ∧ deriv_hardtanh 1 = 0 ∧
     HasDerivWithinAt hardtanh 0 (Set.Iic (-1)) (-1) ∧
     HasDerivWithinAt hardtanh 0 (Set.Ici 1) 1) ∧
    ((-3 < x ∧ x < 3 → HasDerivAt hardswish (deriv_hardswish x) x) ∧
     (x < -3 → HasDerivAt hardswish (deriv_hardswish x) x) ∧
     (3 < x → HasDerivAt hardswish (deriv_hardswish x) x) ∧
     deriv_hardswish (-3) = 0 ∧ deriv_hardswish 3 = 1 ∧
     HasDerivWithinAt hardswish 0 (Set.Iic (-3)) (-3) ∧
     HasDerivWithinAt hardswish 1 (Set.Ici 3) 3) := by
  refine ⟨⟨?_, ?_, by simp [deriv_relu], ?_⟩,
          ⟨?_, ?_, ?_, by norm_num [deriv_hardsigmoid], by norm_num [deriv_hardsigmoid],
            ?_, ?_⟩,
          ⟨?_, ?_, ?_, by norm_num [deriv_hardtanh], by norm_num [deriv_hardtanh], ?_, ?_⟩,
          ⟨?_, ?_, ?_, by norm_num [deriv_hardswish], by norm_num [deriv_hardswish], ?_, ?_⟩⟩
  -- relu, interior of the positive piece
  · intro hx
    have hd : deriv_relu x = 1 := by simp [deriv_relu, hx]
    rw [hd]
    exact hasDerivAt_of_eqOn isOpen_Ioi hx
      (fun y hy => by simp [relu, Set.mem_Ioi.mp hy]) (hasDerivAt_id x)
  -- relu, interior of the leak piece
  · intro hx
    have hd : deriv_relu x = kReLUSlope := by simp [deriv_relu, not_lt_of_gt hx, asymm hx]
    rw [hd]
    have base : HasDerivAt (fun y => kReLUSlope * y) kReLUSlope x := by
      simpa using (hasDerivAt_id x).const_mul kReLUSlope
    exact hasDerivAt_of_eqOn isOpen_Iio hx
      (fun y hy => by
        simp [relu, not_lt_of_gt (Set.mem_Iio.mp hy), asymm (Set.mem_Iio.mp hy)]) base
  -- relu, left-hand derivative at the kink
  · refine HasDerivWithinAt.congr (f := fun y => kReLUSlope * y) ?_ ?_ (by simp [relu])
    · simpa using (hasDerivWithinAt_id (0 : ℝ) (Set.Iic 0)).const_mul kReLUSlope
    · intro y hy
      rcases eq_or_lt_of_le (Set.mem_Iic.mp hy) with h | h
      · subst h; simp [relu]
      · simp [relu, not_lt_of_gt h, asymm h]
  -- hardsigmoid, interior linear piece
  · rintro ⟨h1, h2⟩
    have hd : deriv_hardsigmoid x = 1 / 6 := by simp [deriv_hardsigmoid, h1, h2]
    rw [hd]
    have base : HasDerivAt (fun y : ℝ => (y + 3) * (1 / 6)) (1 / 6) x := by
      simpa using ((hasDerivAt_id x).add_const (3 : ℝ)).mul_const ((1 : ℝ) / 6)
    refine hasDerivAt_of_eqOn isOpen_Ioo (Set.mem_Ioo.mpr ⟨h1, h2⟩) (fun y hy => ?_) base
    have := Set.mem_Ioo.mp hy
    simp [hardsigmoid, not_le_of_gt this.1, not_le_of_gt this.2]
  -- hardsigmoid, saturated low piece
  · intro hx
    have hd : deriv_hardsigmoid x = 0 := by
      simp [deriv_hardsigmoid]
      intro h; exact absurd hx (not_lt_of_gt h)
    rw [hd]
    exact hasDerivAt_of_eqOn isOpen_Iio hx
      (fun y hy => by simp [hardsigmoid, le_of_lt (Set.mem_Iio.mp hy)])
      (hasDerivAt_const x 0)
  -- hardsigmoid, saturated high piece
  · intro hx
    have hd : deriv_hardsigmoid x = 0 := by
      simp [deriv_hardsigmoid]
      intro _; exact le_of_lt hx
    rw [hd]
    refine hasDerivAt_of_eqOn isOpen_Ioi hx (fun y hy => ?_) (hasDerivAt_const x 1)
    have h3 : (3 : ℝ) ≤ y := le_of_lt (Set.mem_Ioi.mp hy)
    simp [hardsigmoid, h3, not_le_of_gt (lt_of_lt_of_le (by norm_num : (-3 : ℝ) < 3) h3)]
  -- hardsigmoid, left-hand derivative at the lower kink
  · refine (hasDerivWithinAt_const (-3 : ℝ) (Set.Iic (-3)) (0 : ℝ)).congr
      (fun y hy => by simp [hardsigmoid, Set.mem_Iic.mp hy]) (by simp [hardsigmoid])
  -- hardsigmoid, right-hand derivative at the upper kink
  · refine (hasDerivWithinAt_const (3 : ℝ) (Set.Ici 3) (1 : ℝ)).congr
      (fun y hy => ?_) (by norm_num [hardsigmoid])
    have h3 : (3 : ℝ) ≤ y := Set.mem_Ici.mp hy
    simp [hardsigmoid, h3, not_le_of_gt (lt_of_lt_of_le (by norm_num : (-3 : ℝ) < 3) h3)]
  -- hardtanh, interior identity piece
  · rintro ⟨h1, h2⟩
    have hd : deriv_hardtanh x = 1 := by simp [deriv_hardtanh, h1, h2]
    rw [hd]
    refine hasDerivAt_of_eqOn isOpen_Ioo (Set.mem_Ioo.mpr ⟨h1, h2⟩) (fun y hy => ?_)
      (hasDerivAt_id x)
    have := Set.mem_Ioo.mp hy
    simp [hardtanh, not_le_of_gt this.1, not_le_of_gt this.2]
  -- hardtanh, saturated low piece
  · intro hx
    have hd : deriv_hardtanh x = 0 := by
      simp [deriv_hardtanh]
      intro h; exact absurd hx (not_lt_of_gt h)
    rw [hd]
    exact hasDerivAt_of_eqOn isOpen_Iio hx
      (fun y hy => by simp [hardtanh, le_of_lt (Set.mem_Iio.mp hy)])
      (hasDerivAt_const x (-1))
  -- hardtanh, saturated high piece
  · intro hx
    have hd : deriv_hardtanh x = 0 := by
      simp [deriv_hardtanh]
      intro _; exact le_of_lt hx
    rw [hd]
    refine hasDerivAt_of_eqOn isOpen_Ioi hx (fun y hy => ?_) (hasDerivAt_const x 1)
    have h1 : (1 : ℝ) ≤ y := le_of_lt (Set.mem_Ioi.mp hy)
    simp [hardtanh, h1, not_le_of_gt (lt_of_lt_of_le (by norm_num : (-1 : ℝ) < 1) h1)]
  -- hardtanh, left-hand derivative at the lower kink
  · refine (hasDerivWithinAt_const (-1 : ℝ) (Set.Iic (-1)) (-1 : ℝ)).congr
      (fun y hy => by simp [hardtanh, Set.mem_Iic.mp hy]) (by simp [hardtanh])
  -- hardtanh, right-hand derivative at the upper kink
  · refine (hasDerivWithinAt_const (1 : ℝ) (Set.Ici 1) (1 : ℝ)).congr
      (fun y hy => ?_) (by norm_num [hardtanh])
    have h1 : (1 : ℝ) ≤ y := Set.mem_Ici.mp hy
    simp [hardtanh, h1, not_le_of_gt (lt_of_lt_of_le (by norm_num : (-1 : ℝ) < 1) h1)]
  -- hardswish, interior polynomial piece
  · rintro ⟨h1, h2⟩
    have hd : deriv_hardswish x = (2 * x + 3) / 6 := by
      simp [deriv_hardswish, not_le_of_gt h1, not_le_of_gt h2]
    rw [hd]
    have base : HasDerivAt (fun y : ℝ => y * (y + 3) / 6) ((2 * x + 3) / 6) x := by
      have h := ((hasDerivAt_id x).mul ((hasDerivAt_id x).add_const (3 : ℝ))).div_const
        (6 : ℝ)
      convert h using 1
      simp
      ring
    refine hasDerivAt_of_eqOn isOpen_Ioo (Set.mem_Ioo.mpr ⟨h1, h2⟩) (fun y hy => ?_) base
    have := Set.mem_Ioo.mp hy
    simp [hardswish, not_le_of_gt this.1, not_le_of_gt this.2]
  -- hardswish, saturated low piece
  · intro hx
    have hd : deriv_hardswish x = 0 := by simp [deriv_hardswish, le_of_lt hx]
    rw [hd]
    exact hasDerivAt_of_eqOn isOpen_Iio hx
      (fun y hy => by simp [hardswish, le_of_lt (Set.mem_Iio.mp hy)])
      (hasDerivAt_const x 0)
  -- hardswish, identity piece above
  · intro hx
    have hd : deriv_hardswish x = 1 := by
      simp [deriv_hardswish, le_of_lt hx,
        not_le_of_gt (lt_trans (by norm_num : (-3 : ℝ) < 3) hx)]
    rw [hd]
    refine hasDerivAt_of_eqOn isOpen_Ioi hx (fun y hy => ?_) (hasDerivAt_id x)
    have h3 : (3 : ℝ) ≤ y := le_of_lt (Set.mem_Ioi.mp hy)
    simp [hardswish, h3, not_le_of_gt (lt_of_lt_of_le (by norm_num : (-3 : ℝ) < 3) h3)]
  -- hardswish, left-hand derivative at the lower kink
  · refine (hasDerivWithinAt_const (-3 : ℝ) (Set.Iic (-3)) (0 : ℝ)).congr
      (fun y hy => by simp [hardswish, Set.mem_Iic.mp hy]) (by simp [hardswish])
  -- hardswish, right-hand derivative at the upper kink
  · refine (hasDerivWithinAt_id (3 : ℝ) (Set.Ici 3)).congr (fun y hy => ?_)
      (by norm_num [hardswish])
    have h3 : (3 : ℝ) ≤ y := Set.mem_Ici.mp hy
    simp [hardswish, h3, not_le_of_gt (lt_of_lt_of_le (by norm_num : (-3 : ℝ) < 3) h3)]

theorem C8_witness :
    HasDerivAt relu (deriv_relu 1) 1 ∧
    HasDerivAt hardsigmoid (deriv_hardsigmoid 0) 0 ∧
    HasDerivAt hardtanh (deriv_hardtanh 2) 2 ∧
    HasDerivAt hardswish (deriv_hardswish 0) 0 :=
  ⟨(C8_amended_kink_convention 1).1.1 (by norm_num),
   (C8_amended_kink_convention 0).2.1.1 ⟨by norm_num, by norm_num⟩,
   (C8_amended_kink_convention 2).2.2.1.2.2.1 (by norm_num),
   (C8_amended_kink_convention 0).2.2.2.1 ⟨by norm_num, by norm_num⟩⟩

/-! ### C1 -/

theorem getD_map {α β : Type} (f : α → β) :
    ∀ (l : List α) (j : Nat) (d : α), (l.map f).getD j (f d) = f (l.getD j d) := by
  intro l
  induction l with
  | nil => intro j d; simp
  | cons a l ih =>
      intro j d
      cases j with
      | zero => simp
      | succ j => simp only [List.map_cons, List.getD_cons_succ]; exact ih j d

theorem applyLoop_getD (lr ib : ℝ) :
    ∀ (ws sqs accs : List ℝ) (j : Nat),
      sqs.length = ws.length → accs.length = ws.length → j < ws.length →
      (applyLoop lr ib ws sqs accs).getD j (0, 0) =
        applyTriple lr ib (ws.getD j 0) (sqs.getD j 0) (accs.getD j 0) := by
  intro ws
  induction ws with
  | nil => intro sqs accs j _ _ hj; simp at hj
  | cons w ws ih =>
      intro sqs accs j hsq hacc hj
      cases sqs with
      | nil => simp at hsq
      | cons sq sqs =>
          cases accs with
          | nil => simp at hacc
          | cons acc accs =>
              cases j with
              | zero => simp [applyLoop]
              | succ j =>
                  simp only [applyLoop, List.getD_cons_succ]
                  exact ih sqs accs j (by simp at hsq; exact hsq)
                    (by simp at hacc; exact hacc) (by simpa using hj)

theorem applyLoop_length (lr ib : ℝ) :
    ∀ (ws sqs accs : List ℝ), sqs.length = ws.length → accs.length = ws.length →
      (applyLoop lr ib ws sqs accs).length = ws.length := by
  intro ws
  induction ws with
  | nil => intro sqs accs _ _; cases sqs <;> cases accs <;> simp [applyLoop]
  | cons w ws ih =>
      intro sqs accs hsq hacc
      cases sqs with
      | nil => simp at hsq
      | cons sq sqs =>
          cases accs with
          | nil => simp at hacc
          | cons acc accs =>
              simp only [applyLoop, List.length_cons]
              rw [ih sqs accs (by simpa using hsq) (by simpa using hacc)]

/-- C1: for every node and every batch, `Node::ApplyAccumulatedGradients`
performs, for each weight `j` and then identically for the bias:
`g := clamp(grad_accum_j * inv_batch, -10, +10)`;
`sq_avg_j := 0.9 * sq_avg_j + 0.1 * g^2` clamped above at `1e6`;
`eta := min(lr / (sqrt(sq_avg_j) + 1e-6), 1.0)`; `w_j := w_j - eta * g`;
and afterwards every gradient accumulator, including the bias
accumulator, equals `0`. -/
theorem C1_apply_accumulated_gradients (nd : Node) (lr batch_size_inv : ℝ) (j : Nat)
    (hsq : nd.squared_gradient_avg.length = nd.weights.length)
    (hacc : nd.gradient_accumulator.length = nd.weights.length)
    (hj : j < nd.weights.length) :
    (let g := max (min (nd.gradient_accumulator.getD j 0 * batch_size_inv) 10) (-10)
     let sq := min (9 / 10 * nd.squared_gradient_avg.getD j 0 + 1 / 10 * g * g) 1000000
     (ApplyAccumulatedGradients lr batch_size_inv nd).weights.getD j 0 =
        nd.weights.getD j 0 - min (lr / (Real.sqrt sq + 1 / 1000000)) 1 * g ∧
     (ApplyAccumulatedGradients lr batch_size_inv nd).squared_gradient_avg.getD j 0 = sq) ∧
    (let bg := max (min (nd.bias_gradient_accumulator * batch_size_inv) 10) (-10)
     let bsq := min (9 / 10 * nd.bias_squared_gradient_avg + 1 / 10 * bg * bg) 1000000
     (ApplyAccumulatedGradients lr batch_size_inv nd).bias =
        nd.bias - min (lr / (Real.sqrt bsq + 1 / 1000000)) 1 * bg ∧
     (ApplyAccumulatedGradients lr batch_size_inv nd).bias_squared_gradient_avg = bsq) ∧
    (ApplyAccumulatedGradients lr batch_size_inv nd).gradient_accumulator =
      List.replicate nd.weights.length 0 ∧
    (ApplyAccumulatedGradients lr batch_size_inv nd).bias_gradient_accumulator = 0 := by
  have hget := applyLoop_getD lr batch_size_inv nd.weights nd.squared_gradient_avg
    nd.gradient_accumulator j hsq hacc hj
  have hlen := applyLoop_length lr batch_size_inv nd.weights nd.squared_gradient_avg
    nd.gradient_accumulator hsq hacc
  refine ⟨⟨?_, ?_⟩, ⟨?_, ?_⟩, ?_, ?_⟩
  · have h1 : (ApplyAccumulatedGradients lr batch_size_inv nd).weights.getD j 0 =
        Prod.fst ((applyLoop lr batch_size_inv nd.weights nd.squared_gradient_avg
          nd.gradient_accumulator).getD j (0, 0)) := by
      simpa [ApplyAccumulatedGradients] using
        getD_map Prod.fst (applyLoop lr batch_size_inv nd.weights nd.squared_gradient_avg
          nd.gradient_accumulator) j (0, 0)
    rw [h1, hget]
    simp [applyTriple, clipGradient, nextSquaredAvg, adjustedLearningRate,
      gradientClipValue, rmsPropDecay, rmsPropDecayInv, rmsPropEpsilon,
      maxSquaredGradAvg, maxAdjustedLR]
  · have h1 : (ApplyAccumulatedGradients lr batch_size_inv nd).squared_gradient_avg.getD j 0 =
        Prod.snd ((applyLoop lr batch_size_inv nd.weights nd.squared_gradient_avg
          nd.gradient_accumulator).getD j (0, 0)) := by
      simpa [ApplyAccumulatedGradients] using
        getD_map Prod.snd (applyLoop lr batch_size_inv nd.weights nd.squared_gradient_avg
          nd.gradient_accumulator) j (0, 0)
    rw [h1, hget]
    simp [applyTriple, clipGradient, nextSquaredAvg, adjustedLearningRate,
      gradientClipValue, rmsPropDecay, rmsPropDecayInv, rmsPropEpsilon,
      maxSquaredGradAvg, maxAdjustedLR]
  · simp [ApplyAccumulatedGradients, clipGradient, nextSquaredAvg, adjustedLearningRate,
      gradientClipValue, rmsPropDecay, rmsPropDecayInv, rmsPropEpsilon,
      maxSquaredGradAvg, maxAdjustedLR]
  · simp [ApplyAccumulatedGradients, clipGradient, nextSquaredAvg,
      gradientClipValue, rmsPropDecay, rmsPropDecayInv, maxSquaredGradAvg]
  · have : (ApplyAccumulatedGradients lr batch_size_inv nd).gradient_accumulator =
        (applyLoop lr batch_size_inv nd.weights nd.squared_gradient_avg
          nd.gradient_accumulator).map (fun _ => (0 : ℝ)) := rfl
    rw [this, List.map_const', hlen]
  · rfl

/-- A concrete node for the C1 witness. -/
noncomputable def exNode : Node :=
  { weights := [1]
    bias := 2
    squared_gradient_avg := [0]
    bias_squared_gradient_avg := 0
    gradient_accumulator := [3]
    bias_gradient_accumulator := 4 }

theorem C1_witness :
    exNode.squared_gradient_avg.length = exNode.weights.length ∧
    exNode.gradient_accumulator.length = exNode.weights.length ∧
    0 < exNode.weights.length ∧
    ((let g := max (min (exNode.gradient_accumulator.getD 0 0 * 1) 10) (-10)
      let sq := min (9 / 10 * exNode.squared_gradient_avg.getD 0 0 + 1 / 10 * g * g) 1000000
      (ApplyAccumulatedGradients 1 1 exNode).weights.getD 0 0 =
        exNode.weights.getD 0 0 - min (1 / (Real.sqrt sq + 1 / 1000000)) 1 * g ∧
      (ApplyAccumulatedGradients 1 1 exNode).squared_gradient_avg.getD 0 0 = sq) ∧
     (let bg := max (min (exNode.bias_gradient_accumulator * 1) 10) (-10)
      let bsq := min (9 / 10 * exNode.bias_squared_gradient_avg + 1 / 10 * bg * bg) 1000000
      (ApplyAccumulatedGradients 1 1 exNode).bias =
        exNode.bias - min (1 / (Real.sqrt bsq + 1 / 1000000)) 1 * bg ∧
      (ApplyAccumulatedGradients 1 1 exNode).bias_squared_gradient_avg = bsq) ∧
     (ApplyAccumulatedGradients 1 1 exNode).gradient_accumulator =
       List.replicate exNode.weights.length 0 ∧
     (ApplyAccumulatedGradients 1 1 exNode).bias_gradient_accumulator = 0) :=
  ⟨by simp [exNode], by simp [exNode], by simp [exNode],
   C1_apply_accumulated_gradients exNode 1 1 0 (by simp [exNode]) (by simp [exNode])
     (by simp [exNode])⟩

/-! ### C7 -/

/-- A structurally simpler form of the cumulative walk, equal to
`selectIndex` on every draw below the total weight. -/
def selectSimple : List Nat → Nat → Nat
  | [], _ => 0
  | w :: ws, r => if r < w then 0 else selectSimple ws (r - w) + 1

theorem selectIndexAux_shift (r : Nat) :
    ∀ (ws : List Nat) (i cum : Nat), cum ≤ r → r < cum + ws.sum →
      selectIndexAux r ws i cum = i + selectSimple ws (r - cum) := by
  intro ws
  induction ws with
  | nil => intro i cum h1 h2; simp at h2; omega
  | cons w ws ih =>
      intro i cum h1 h2
      simp only [selectIndexAux, selectSimple]
      by_cases hc : r < cum + w
      · rw [if_pos hc, if_pos (by omega)]
        omega
      · rw [if_neg hc, if_neg (by omega)]
        rw [ih (i + 1) (cum + w) (by omega) (by simp only [List.sum_cons] at h2; omega)]
        rw [Nat.sub_sub]
        omega

theorem selectSimple_count :
    ∀ (ws : List Nat) (i : Nat), i < ws.length →
      ((Finset.range ws.sum).filter (fun r => selectSimple ws r = i)).card =
        ws.getD i 0 := by
  intro ws
  induction ws with
  | nil => intro i hi; simp at hi
  | cons w ws ih =>
      intro i hi
      cases i with
      | zero =>
          have hset : (Finset.range (w :: ws).sum).filter
              (fun r => selectSimple (w :: ws) r = 0) = Finset.range w := by
            ext r
            simp only [Finset.mem_filter, Finset.mem_range, List.sum_cons, selectSimple]
            constructor
            · rintro ⟨h1, h2⟩
              by_cases hr : r < w
              · exact hr
              · rw [if_neg hr] at h2
                omega
            · intro hr
              exact ⟨by omega, by rw [if_pos hr]⟩
          rw [hset]
          simp
      | succ i =>
          have hset : (Finset.range (w :: ws).sum).filter
              (fun r => selectSimple (w :: ws) r = i + 1) =
              Finset.image (fun r => r + w)
                ((Finset.range ws.sum).filter (fun r => selectSimple ws r = i)) := by
            ext r
            simp only [Finset.mem_filter, Finset.mem_range, Finset.mem_image, List.sum_cons,
              selectSimple]
            constructor
            · rintro ⟨h1, h2⟩
              by_cases hr : r < w
              · rw [if_pos hr] at h2
                omega
              · rw [if_neg hr] at h2
                exact ⟨r - w, ⟨by omega, by omega⟩, by omega⟩
            · rintro ⟨q, ⟨hq1, hq2⟩, rfl⟩
              have hw : ¬ q + w < w := by omega
              rw [if_neg hw]
              have hqw : q + w - w = q := by omega
              rw [hqw, hq2]
              exact ⟨by omega, rfl⟩
          rw [hset, Finset.card_image_of_injective _ (add_left_injective w),
            ih i (by simpa using hi)]
          simp

theorem selectIndex_count (ws : List Nat) (i : Nat) (hi : i < ws.length) :
    ((Finset.range ws.sum).filter (fun r => selectIndex ws r = i)).card =
      ws.getD i 0 := by
  have hcong : ∀ r ∈ Finset.range ws.sum, selectIndex ws r = i ↔ selectSimple ws r = i := by
    intro r hr
    have h := selectIndexAux_shift r ws 0 0 (Nat.zero_le r)
      (by simpa using Finset.mem_range.mp hr)
    simp only [Nat.sub_zero, Nat.zero_add] at h
    rw [selectIndex, h]
  rw [Finset.filter_congr hcong]
  exact selectSimple_count ws i hi

/-- C7: `RANDOM_OLDER` eviction chooses the removed index with
probability proportional to `age_i = current_timestamp - timestamp_i`:
over the uniform draw `r < total_weight`, exactly `age_i` of the
possible draws select index `i`; and whenever the total age weight is
zero the index is the uniform fallback draw itself. -/
theorem C7_random_older_eviction (ds : Dataset) (i : Nat)
    (hmode : ds.forget_mode = ForgetMode.RANDOM_OLDER)
    (hi : i < ds.timestamps.length) :
    ((ageWeights ds).sum ≠ 0 →
      ((Finset.range (ageWeights ds).sum).filter
          (fun r => evictionIndex ds r = i)).card = (ageWeights ds).getD i 0) ∧
    ((ageWeights ds).sum = 0 → ∀ draw, evictionIndex ds draw = draw) := by
  constructor
  · intro hz
    have hcong : ∀ r ∈ Finset.range (ageWeights ds).sum,
        evictionIndex ds r = i ↔ selectIndex (ageWeights ds) r = i := by
      intro r _
      simp [evictionIndex, hmode, hz]
    rw [Finset.filter_congr hcong]
    exact selectIndex_count _ i (by simpa [ageWeights] using hi)
  · intro hz draw
    simp [evictionIndex, hmode, hz]

/-- A dataset with three examples of strictly increasing age. -/
def ds7 : Dataset :=
  { features := [[], [], []]
    labels := [[], [], []]
    timestamps := [0, 1, 2]
    current_timestamp := 3
    max_examples := 100
    replay_memory_enabled := true
    forget_mode := ForgetMode.RANDOM_OLDER
    data_size := 0
    output_size := 0 }

theorem C7_witness :
    ds7.forget_mode = ForgetMode.RANDOM_OLDER ∧
    (1 : Nat) < ds7.timestamps.length ∧
    (ageWeights ds7).sum ≠ 0 ∧
    ((Finset.range (ageWeights ds7).sum).filter
        (fun r => evictionIndex ds7 r = 1)).card = (ageWeights ds7).getD 1 0 :=
  ⟨rfl, by simp [ds7], by decide,
   (C7_random_older_eviction ds7 1 rfl (by simp [ds7])).1 (by decide)⟩

/-! ### C6 -/

@[simp] theorem adjustSizes_features (d : Dataset) : (adjustSizes d).features = d.features := by
  unfold adjustSizes; split <;> rfl

@[simp] theorem adjustSizes_labels (d : Dataset) : (adjustSizes d).labels = d.labels := by
  unfold adjustSizes; split <;> rfl

@[simp] theorem adjustSizes_timestamps (d : Dataset) :
    (adjustSizes d).timestamps = d.timestamps := by
  unfold adjustSizes; split <;> rfl

@[simp] theorem adjustSizes_current_timestamp (d : Dataset) :
    (adjustSizes d).current_timestamp = d.current_timestamp := by
  unfold adjustSizes; split <;> rfl

@[simp] theorem adjustSizes_max_examples (d : Dataset) :
    (adjustSizes d).max_examples = d.max_examples := by
  unfold adjustSizes; split <;> rfl

@[simp] theorem adjustSizes_replay (d : Dataset) :
    (adjustSizes d).replay_memory_enabled = d.replay_memory_enabled := by
  unfold adjustSizes; split <;> rfl

@[simp] theorem adjustSizes_forget_mode (d : Dataset) :
    (adjustSizes d).forget_mode = d.forget_mode := by
  unfold adjustSizes; split <;> rfl

/-- C6 counterexample: after storing a zero-width first example the
store is non-empty, yet a subsequent `Add` whose feature and label
widths differ from the stored widths is accepted, because the width
check is gated on `data_size_ > 0` rather than on the store being
non-empty.  The claim requires this call to be rejected. -/
theorem C6_counterexample :
    (Add emptyDataset [] [] 0).1 = true ∧
    (Add emptyDataset [] [] 0).2.features ≠ [] ∧
    [(1 : ℝ)].length ≠ (Add emptyDataset [] [] 0).2.features.headI.length ∧
    (Add (Add emptyDataset [] [] 0).2 [1] [1, 1] 0).1 = true := by
  refine ⟨?_, ?_, ?_, ?_⟩ <;>
    simp [Add, emptyDataset, appendExample, adjustSizes, kMax_examples]

/-- C6 (amended): `Dataset::Add` rejects with the dataset unchanged when
the stored feature width `data_size_` is non-zero and the feature or
label width differs from the stored widths (the check is vacuous while
`data_size_ = 0`, e.g. after a zero-width first example); at capacity it
evicts exactly one example per `forget_mode` when replay is enabled and
rejects with the dataset unchanged when replay is disabled; otherwise it
appends the pair with timestamp `current_timestamp_++` and succeeds; and
from `size ≤ max_examples`, with an in-range eviction index (which the
C++ uniform draws guarantee), the size never exceeds `max_examples`. -/
theorem C6_add_contract (ds : Dataset) (feature label : List ℝ) (draw : Nat) :
    (0 < ds.data_size ∧
        (feature.length ≠ ds.data_size ∨ label.length ≠ ds.output_size) →
      Add ds feature label draw = (false, ds)) ∧
    ((0 < ds.data_size →
        feature.length = ds.data_size ∧ label.length = ds.output_size) →
      (ds.max_examples ≤ ds.features.length →
        (ds.replay_memory_enabled = false → Add ds feature label draw = (false, ds)) ∧
        (ds.replay_memory_enabled = true →
          Add ds feature label draw =
            (true, appendExample (RemoveOneExcessExample ds draw) feature label))) ∧
      (ds.features.length < ds.max_examples →
        Add ds feature label draw = (true, appendExample ds feature label))) ∧
    ((appendExample ds feature label).features = ds.features ++ [feature] ∧
     (appendExample ds feature label).labels = ds.labels ++ [label] ∧
     (appendExample ds feature label).timestamps =
        ds.timestamps ++ [ds.current_timestamp] ∧
     (appendExample ds feature label).current_timestamp = ds.current_timestamp + 1) ∧
    (ds.features.length ≤ ds.max_examples →
      (ds.max_examples ≤ ds.features.length → ds.replay_memory_enabled = true →
        evictionIndex ds draw < ds.features.length) →
      (Add ds feature label draw).2.features.length ≤ ds.max_examples) := by
  refine ⟨?_, ?_, ?_, ?_⟩
  · intro h
    unfold Add
    rw [if_pos h]
  · intro hw
    have hno : ¬ (0 < ds.data_size ∧
        (feature.length ≠ ds.data_size ∨ label.length ≠ ds.output_size)) := by
      rintro ⟨hpos, hne⟩
      rcases hw hpos with ⟨h1, h2⟩
      rcases hne with h | h <;> exact h (by simp [h1, h2])
    constructor
    · intro hcap
      constructor
      · intro hrep
        unfold Add
        rw [if_neg hno, if_pos hcap, if_neg (by simp [hrep])]
      · intro hrep
        unfold Add
        rw [if_neg hno, if_pos hcap, if_pos (by simp [hrep])]
    · intro hlt
      unfold Add
      rw [if_neg hno, if_neg (by omega)]
  · refine ⟨?_, ?_, ?_, ?_⟩ <;> simp [appendExample]
  · intro hle hidx
    unfold Add
    by_cases h1 : 0 < ds.data_size ∧
        (feature.length ≠ ds.data_size ∨ label.length ≠ ds.output_size)
    · rw [if_pos h1]
      exact hle
    · rw [if_neg h1]
      by_cases h2 : ds.max_examples ≤ ds.features.length
      · rw [if_pos h2]
        by_cases h3 : ds.replay_memory_enabled
        · rw [if_pos h3]
          have hlen2 := List.length_eraseIdx_add_one (hidx h2 h3)
          simp only [appendExample, adjustSizes_features, RemoveOneExcessExample]
          simp only [List.length_append, List.length_cons, List.length_nil]
          omega
        · rw [if_neg h3]
          exact hle
      · rw [if_neg h2]
        simp [appendExample]
        omega

theorem C6_witness :
    Add ds7 [] [] 0 = (true, appendExample ds7 [] []) ∧
    (Add ds7 [] [] 0).2.features.length ≤ ds7.max_examples :=
  ⟨((C6_add_contract ds7 [] [] 0).2.1 (by simp [ds7])).2 (by simp [ds7]),
   (C6_add_contract ds7 [] [] 0).2.2.2 (by simp [ds7]) (by simp [ds7])⟩

/-! ### C2 -/

@[simp] theorem set_input_perform_inference (st : IMLState) (i : Nat) (v : ℝ) :
    (set_input st i v).perform_inference = st.perform_inference := by
  unfold set_input; split <;> rfl

@[simp] theorem set_input_dataset (st : IMLState) (i : Nat) (v : ℝ) :
    (set_input st i v).dataset = st.dataset := by
  unfold set_input; split <;> rfl

@[simp] theorem set_input_output_state (st : IMLState) (i : Nat) (v : ℝ) :
    (set_input st i v).output_state = st.output_state := by
  unfold set_input; split <;> rfl

@[simp] theorem set_input_mode (st : IMLState) (i : Nat) (v : ℝ) :
    (set_input st i v).mode = st.mode := by
  unfold set_input; split <;> rfl

@[simp] theorem set_input_mlp (st : IMLState) (i : Nat) (v : ℝ) :
    (set_input st i v).mlp = st.mlp := by
  unfold set_input; split <;> rfl

@[simp] theorem set_input_n_inputs (st : IMLState) (i : Nat) (v : ℝ) :
    (set_input st i v).n_inputs = st.n_inputs := by
  unfold set_input; split <;> rfl

@[simp] theorem set_input_n_outputs (st : IMLState) (i : Nat) (v : ℝ) :
    (set_input st i v).n_outputs = st.n_outputs := by
  unfold set_input; split <;> rfl

@[simp] theorem set_input_logs (st : IMLState) (i : Nat) (v : ℝ) :
    (set_input st i v).logs = st.logs := by
  unfold set_input; split <;> rfl

@[simp] theorem set_input_input_length (st : IMLState) (i : Nat) (v : ℝ) :
    (set_input st i v).input_state.length = st.input_state.length := by
  unfold set_input; split <;> simp

/-- `Dataset::Add` succeeds and plainly appends whenever the width check
passes and the store is below capacity. -/
theorem Add_success (ds : Dataset) (feature label : List ℝ) (draw : Nat)
    (hw : 0 < ds.data_size →
      feature.length = ds.data_size ∧ label.length = ds.output_size)
    (hc : ds.features.length < ds.max_examples) :
    Add ds feature label draw = (true, appendExample ds feature label) := by
  have hno : ¬ (0 < ds.data_size ∧
      (feature.length ≠ ds.data_size ∨ label.length ≠ ds.output_size)) := by
    rintro ⟨hpos, hne⟩
    rcases hw hpos with ⟨h1, h2⟩
    rcases hne with h | h <;> exact h (by simp [h1, h2])
  unfold Add
  rw [if_neg hno, if_neg (by omega)]

/-- The state-B step of `IML::save_example` under the conditions in
which `Dataset::Add` accepts the pair. -/
theorem save_example_B (st : IMLState) (d : Nat)
    (h : st.perform_inference = false)
    (hw : 0 < st.dataset.data_size →
      st.input_state.length = st.dataset.data_size ∧
      st.output_state.length = st.dataset.output_size)
    (hc : st.dataset.features.length < st.dataset.max_examples) :
    save_example st d = { st with
      dataset := appendExample st.dataset st.input_state st.output_state
      perform_inference := true
      output_state := runInference st.mlp (st.input_state ++ [1]) st.n_outputs
      logs := st.logs ++ ["Example saved."] } := by
  unfold save_example
  rw [if_neg (by simp [h]), Add_success st.dataset st.input_state st.output_state d hw hc]

/-- C2: the two-step `save_example` protocol.  A call in state A
(`perform_inference = true`) only vetoes inference and logs; while
vetoed, `process()` is a no-op; the next call appends
(`input_state`, `output_state`) to the dataset, re-enables inference,
runs one forward pass into `output_state` and logs; hence the sequence
`set_input; save_example; set_output; save_example` grows the dataset by
exactly one example equal to the edited pair and leaves
`perform_inference = true` — all provided the dataset accepts the pair
(consistent widths, size below capacity). -/
theorem C2_save_example_protocol (st : IMLState) (d1 d2 i j : Nat) (v w : ℝ)
    (hpi : st.perform_inference = true)
    (hwidth : 0 < st.dataset.data_size →
      st.input_state.length = st.dataset.data_size ∧
      st.output_state.length = st.dataset.output_size)
    (hcap : st.dataset.features.length < st.dataset.max_examples) :
    (save_example st d1 =
      { st with
        perform_inference := false
        logs := st.logs ++ ["Move to desired output position..."] }) ∧
    (∀ stB : IMLState, stB.perform_inference = false → process stB = stB) ∧
    (∀ stB : IMLState, stB.perform_inference = false →
      (0 < stB.dataset.data_size →
        stB.input_state.length = stB.dataset.data_size ∧
        stB.output_state.length = stB.dataset.output_size) →
      stB.dataset.features.length < stB.dataset.max_examples →
      (save_example stB d2).dataset.features =
        stB.dataset.features ++ [stB.input_state] ∧
      (save_example stB d2).dataset.labels =
        stB.dataset.labels ++ [stB.output_state] ∧
      (save_example stB d2).perform_inference = true ∧
      (save_example stB d2).output_state =
        runInference stB.mlp (stB.input_state ++ [1]) stB.n_outputs ∧
      (save_example stB d2).logs = stB.logs ++ ["Example saved."]) ∧
    (let st4 := save_example (set_output (save_example (set_input st i v) d1) j w) d2
     st4.dataset.features = st.dataset.features ++ [(set_input st i v).input_state] ∧
     st4.dataset.labels = st.dataset.labels ++
        [(set_output (save_example (set_input st i v) d1) j w).output_state] ∧
     st4.dataset.features.length = st.dataset.features.length + 1 ∧
     st4.perform_inference = true) := by
  refine ⟨?_, ?_, ?_, ?_⟩
  · simp [save_example, hpi]
  · intro stB hB
    simp [process, hB]
  · intro stB hB hw hc
    rw [save_example_B stB d2 hB hw hc]
    simp [appendExample]
  · have hA : save_example (set_input st i v) d1 =
        { set_input st i v with
          perform_inference := false
          logs := (set_input st i v).logs ++ ["Move to desired output position..."] } := by
      simp [save_example, hpi]
    set st3 := set_output (save_example (set_input st i v) d1) j w with hst3
    have h3pi : st3.perform_inference = false := by
      rw [hst3, hA]; rfl
    have h3ds : st3.dataset = st.dataset := by
      rw [hst3, hA]; simp [set_output]
    have h3in : st3.input_state = (set_input st i v).input_state := by
      rw [hst3, hA]; rfl
    have h3outlen : st3.output_state.length = st.output_state.length := by
      rw [hst3, hA]; simp [set_output]
    have h3w : 0 < st3.dataset.data_size →
        st3.input_state.length = st3.dataset.data_size ∧
        st3.output_state.length = st3.dataset.output_size := by
      rw [h3ds, h3in, h3outlen]
      intro hpos
      rcases hwidth hpos with ⟨h1, h2⟩
      exact ⟨by simp [h1], h2⟩
    have h3c : st3.dataset.features.length < st3.dataset.max_examples := by
      rw [h3ds]; exact hcap
    rw [save_example_B st3 d2 h3pi h3w h3c]
    simp [appendExample, h3ds, h3in]

/-- A dataset at full capacity (100 single-entry examples, replay
disabled as in the default configuration used by the IML facade). -/
noncomputable def dsFull : Dataset :=
  { emptyDataset with
    features := List.replicate 100 [1 / 2]
    labels := List.replicate 100 [1 / 2]
    timestamps := List.range 100
    current_timestamp := 100
    data_size := 1
    output_size := 1 }

/-- The engine with a full dataset, in Training mode, inference gate open. -/
noncomputable def stC2 : IMLState := { exIML with dataset := dsFull, mode := Mode.Training }

/-- C2 counterexample: with the dataset at `max_examples` (and replay
memory disabled, the default), the second `save_example` of the
interactive sequence does not grow the dataset: `Dataset::Add` rejects
and the store is left at 100 examples, although the protocol otherwise
completes (the claim requires growth by exactly one example). -/
theorem C2_counterexample :
    stC2.perform_inference = true ∧
    stC2.dataset.features.length = 100 ∧
    stC2.dataset.max_examples = 100 ∧
    (save_example (set_output (save_example (set_input stC2 0 (3 / 10)) 5) 0 (4 / 5))
        7).dataset.features.length = 100 := by
  refine ⟨rfl, by simp [stC2, dsFull], rfl, ?_⟩
  have hA : save_example (set_input stC2 0 (3 / 10)) 5 =
      { set_input stC2 0 (3 / 10) with
        perform_inference := false
        logs := (set_input stC2 0 (3 / 10)).logs ++
          ["Move to desired output position..."] } := by
    simp [save_example]
    rfl
  rw [hA]
  simp [save_example, set_output, set_input, Add, stC2, dsFull, emptyDataset,
    kMax_examples, clampUnit, exIML, initIML]

theorem C2_witness :
    exIML.perform_inference = true ∧
    save_example exIML 0 =
      { exIML with
        perform_inference := false
        logs := exIML.logs ++ ["Move to desired output position..."] } ∧
    (let st4 := save_example (set_output (save_example (set_input exIML 0 (3 / 10)) 0) 0
        (4 / 5)) 0
     st4.dataset.features =
        exIML.dataset.features ++ [(set_input exIML 0 (3 / 10)).input_state] ∧
     st4.dataset.labels = exIML.dataset.labels ++
        [(set_output (save_example (set_input exIML 0 (3 / 10)) 0) 0 (4 / 5)).output_state] ∧
     st4.dataset.features.length = exIML.dataset.features.length + 1 ∧
     st4.perform_inference = true) :=
  ⟨rfl,
   (C2_save_example_protocol exIML 0 0 0 0 (3 / 10) (4 / 5) rfl
      (by simp [exIML, initIML, emptyDataset])
      (by simp [exIML, initIML, emptyDataset, kMax_examples])).1,
   (C2_save_example_protocol exIML 0 0 0 0 (3 / 10) (4 / 5) rfl
      (by simp [exIML, initIML, emptyDataset])
      (by simp [exIML, initIML, emptyDataset, kMax_examples])).2.2.2⟩

/-! ### C3 -/

theorem mapFrom_length {α β : Type} (f : Nat → α → β) :
    ∀ (n : Nat) (l : List α), (mapFrom f n l).length = l.length := by
  intro n l
  induction l generalizing n with
  | nil => rfl
  | cons a l ih => simp [mapFrom, ih]

theorem forall₂_mapFrom {α : Type} {R : α → α → Prop} (f : Nat → α → α)
    (hf : ∀ n a, R (f n a) a) :
    ∀ (l : List α) (n : Nat), List.Forall₂ R (mapFrom f n l) l := by
  intro l
  induction l with
  | nil => intro n; exact List.Forall₂.nil
  | cons a l ih => intro n; exact List.Forall₂.cons (hf n a) (ih (n + 1))

theorem setNodesWeights_restore :
    ∀ (ns' ns : List Node), ns'.length = ns.length →
      (setNodesWeights ns' (ns.map (fun nd => nd.weights))).map (fun nd => nd.weights) =
        ns.map (fun nd => nd.weights) := by
  intro ns'
  induction ns' with
  | nil =>
      intro ns h
      cases ns with
      | nil => rfl
      | cons _ _ => simp at h
  | cons nd' ns' ih =>
      intro ns h
      cases ns with
      | nil => simp at h
      | cons nd ns =>
          simp only [List.map_cons, setNodesWeights, List.map_cons]
          rw [ih ns (by simpa using h)]

theorem setLayersWeights_restore :
    ∀ (Ls' Ls : List LayerModel),
      List.Forall₂ (fun L' L => L'.nodes.length = L.nodes.length) Ls' Ls →
      (setLayersWeights Ls' (Ls.map (fun L => L.nodes.map (fun nd => nd.weights)))).map
          (fun L => L.nodes.map (fun nd => nd.weights)) =
        Ls.map (fun L => L.nodes.map (fun nd => nd.weights)) := by
  intro Ls' Ls h
  induction h with
  | nil => rfl
  | cons hR htail ih =>
      simp only [List.map_cons, setLayersWeights, List.map_cons]
      rw [setNodesWeights_restore _ _ hR, ih]

/-- Restoring a `GetWeights` snapshot after `DrawWeights` brings the
weight structure back exactly: `DrawWeights` only overwrites weight
values (shapes are untouched) and `SetWeights` writes the snapshot back
slot by slot. -/
theorem getWeights_restore (m : MLPModel) (fresh : Nat → Nat → Nat → ℝ) :
    getWeights (setWeights (drawWeights m fresh) (getWeights m)) = getWeights m := by
  unfold getWeights setWeights drawWeights
  simp only []
  apply setLayersWeights_restore
  apply forall₂_mapFrom
  intro n L
  simp [mapWithIndex, mapFrom_length]

/-- C3: in Training mode, `randomise_weights` snapshots the current
weights into `stored_weights` before drawing fresh ones and raises the
randomised flag; a subsequent `set_mode(Inference)` with an empty
dataset restores the MLP weights exactly, because `IML::train` restores
the snapshot before its empty-dataset check and then skips training. -/
theorem C3_randomise_restore (st : IMLState) (fresh : Nat → Nat → Nat → ℝ)
    (f : TrainOracle)
    (hmode : st.mode = Mode.Training)
    (hds : st.dataset.features = []) :
    (randomise_weights st fresh).stored_weights = getWeights st.mlp ∧
    (randomise_weights st fresh).weights_randomised = true ∧
    getWeights (set_mode f Mode.Inference (randomise_weights st fresh)).mlp =
      getWeights st.mlp ∧
    (set_mode f Mode.Inference (randomise_weights st fresh)).logs =
      st.logs ++ ["Weights randomised.", "Empty dataset, skipping training."] := by
  have hrand : randomise_weights st fresh =
      { st with
        stored_weights := getWeights st.mlp
        mlp := drawWeights st.mlp fresh
        weights_randomised := true
        output_state := runInference (drawWeights st.mlp fresh) (st.input_state ++ [1])
          st.n_outputs
        logs := st.logs ++ ["Weights randomised."] } := by
    simp [randomise_weights, hmode]
  refine ⟨by rw [hrand], by rw [hrand], ?_, ?_⟩
  · rw [hrand]
    simp [set_mode, hmode, trainIML, trainRestored, trainCore, GetFeatures, AddBias, hds]
    exact getWeights_restore st.mlp fresh
  · rw [hrand]
    simp [set_mode, hmode, trainIML, trainRestored, trainCore, GetFeatures, AddBias, hds]

/-- The engine switched to Training mode. -/
noncomputable def stC3 : IMLState := { exIML with mode := Mode.Training }

theorem C3_witness :
    stC3.mode = Mode.Training ∧
    stC3.dataset.features = [] ∧
    ((randomise_weights stC3 wOne).stored_weights = getWeights stC3.mlp ∧
     (randomise_weights stC3 wOne).weights_randomised = true ∧
     getWeights (set_mode fBump Mode.Inference (randomise_weights stC3 wOne)).mlp =
       getWeights stC3.mlp ∧
     (set_mode fBump Mode.Inference (randomise_weights stC3 wOne)).logs =
       stC3.logs ++ ["Weights randomised.", "Empty dataset, skipping training."]) :=
  ⟨rfl, rfl, C3_randomise_restore stC3 wOne fBump rfl rfl⟩

/-! ### C5 -/

/-- Every element of the list lies in `[0, 1]`. -/
def UnitList (l : List ℝ) : Prop := ∀ y ∈ l, 0 ≤ y ∧ y ≤ 1

/-- The activation of the output layer. -/
def lastAct (m : MLPModel) : Option ActKind :=
  m.layers.getLast?.map (fun L => L.activation)

theorem sigmoid_bounds (x : ℝ) : 0 ≤ sigmoid x ∧ sigmoid x ≤ 1 := by
  have h := Real.exp_pos (-x)
  unfold sigmoid
  constructor
  · positivity
  · rw [div_le_one (by positivity)]
    linarith

theorem clampUnit_bounds (v : ℝ) : 0 ≤ clampUnit v ∧ clampUnit v ≤ 1 := by
  unfold clampUnit
  split_ifs with h1 h2 <;> constructor <;> linarith

theorem UnitList_set (l : List ℝ) (i : Nat) (v : ℝ) (hl : UnitList l)
    (hv : 0 ≤ v ∧ v ≤ 1) : UnitList (l.set i v) := by
  intro y hy
  rcases List.mem_or_eq_of_mem_set hy with h | h
  · exact hl y h
  · rw [h]; exact hv

theorem UnitList_getD (l : List ℝ) (h : UnitList l) (i : Nat) :
    0 ≤ l.getD i 0 ∧ l.getD i 0 ≤ 1 := by
  induction l generalizing i with
  | nil => simp
  | cons a l ih =>
      cases i with
      | zero => exact h a (by simp)
      | succ i => exact ih (fun y hy => h y (by simp [hy])) i

theorem forwardLayers_cons (L : LayerModel) (rest : List LayerModel) (input : List ℝ) :
    forwardLayers (L :: rest) input = forwardLayers rest (layerForward L input) := rfl

theorem forwardLayers_unit :
    ∀ (layers : List LayerModel) (input : List ℝ),
      layers.getLast?.map (fun L => L.activation) = some ActKind.SIGMOID →
      UnitList (forwardLayers layers input) := by
  intro layers
  induction layers with
  | nil => intro input h; simp at h
  | cons L rest ih =>
      intro input h
      cases rest with
      | nil =>
          intro y hy
          simp only [forwardLayers, List.foldl_cons, List.foldl_nil] at hy
          simp only [layerForward, List.mem_map] at hy
          obtain ⟨nd, _, rfl⟩ := hy
          have hL : L.activation = ActKind.SIGMOID := by simpa using h
          rw [hL]
          exact sigmoid_bounds _
      | cons L2 rest2 =>
          rw [forwardLayers_cons]
          exact ih (layerForward L input) (by simpa [List.getLast?_cons_cons] using h)

theorem GetOutput_unit (m : MLPModel) (input : List ℝ)
    (hact : lastAct m = some ActKind.SIGMOID)
    (hloss : m.loss_function_type = LossKind.LOSS_MSE) :
    ∀ out, GetOutput m input = some out → UnitList out := by
  intro out h
  unfold GetOutput at h
  by_cases hlen : input.length ≠ m.num_inputs
  · rw [if_pos hlen] at h
    exact absurd h (by simp)
  · rw [if_neg hlen] at h
    rw [if_neg (by simp [hloss])] at h
    obtain rfl : forwardLayers m.layers input = out := by simpa using h
    exact forwardLayers_unit m.layers input hact

theorem runInference_unit (m : MLPModel) (input : List ℝ) (n : Nat)
    (hact : lastAct m = some ActKind.SIGMOID)
    (hloss : m.loss_function_type = LossKind.LOSS_MSE) :
    UnitList (runInference m input n) := by
  unfold runInference GetOutputInto
  cases hG : GetOutput m input with
  | none =>
      intro y hy
      simp only [List.mem_replicate] at hy
      rw [hy.2]
      norm_num
  | some out => exact GetOutput_unit m input hact hloss out hG

theorem getLast?_act_of_forall₂ :
    ∀ (Ls' Ls : List LayerModel),
      List.Forall₂ (fun L' L => L'.activation = L.activation) Ls' Ls →
      Ls'.getLast?.map (fun L => L.activation) = Ls.getLast?.map (fun L => L.activation) := by
  intro Ls' Ls h
  induction h with
  | nil => rfl
  | cons hR htail ih =>
      cases htail with
      | nil => simp [hR]
      | cons h2 h3 =>
          rw [List.getLast?_cons_cons, List.getLast?_cons_cons]
          exact ih

theorem setLayersWeights_acts :
    ∀ (Ls : List LayerModel) (W : List (List (List ℝ))),
      List.Forall₂ (fun L' L => L'.activation = L.activation) (setLayersWeights Ls W) Ls := by
  intro Ls
  induction Ls with
  | nil => intro W; exact List.Forall₂.nil
  | cons L Ls ih =>
      intro W
      cases W with
      | nil => exact List.Forall₂.cons rfl (ih [])
      | cons w W => exact List.Forall₂.cons rfl (ih W)

@[simp] theorem lastAct_setWeights (m : MLPModel) (W : List (List (List ℝ))) :
    lastAct (setWeights m W) = lastAct m :=
  getLast?_act_of_forall₂ _ _ (setLayersWeights_acts m.layers W)

@[simp] theorem lastAct_drawWeights (m : MLPModel) (fresh : Nat → Nat → Nat → ℝ) :
    lastAct (drawWeights m fresh) = lastAct m :=
  getLast?_act_of_forall₂ _ _
    (forall₂_mapFrom (R := fun L' L => L'.activation = L.activation)
      (fun n L => { L with nodes := mapWithIndex (fun k nd =>
        { nd with weights := mapWithIndex (fun j _ => fresh n k j) nd.weights }) L.nodes })
      (fun _ _ => rfl) m.layers 0)

@[simp] theorem lastAct_mapNodes (m : MLPModel) (f : Nat → Nat → Node → Node) :
    lastAct (mapNodes m f) = lastAct m :=
  getLast?_act_of_forall₂ _ _
    (forall₂_mapFrom (R := fun L' L => L'.activation = L.activation)
      (fun n L => { L with nodes := mapWithIndex (fun k nd => f n k nd) L.nodes })
      (fun _ _ => rfl) m.layers 0)

@[simp] theorem loss_setWeights (m : MLPModel) (W : List (List (List ℝ))) :
    (setWeights m W).loss_function_type = m.loss_function_type := rfl

@[simp] theorem loss_drawWeights (m : MLPModel) (fresh : Nat → Nat → Nat → ℝ) :
    (drawWeights m fresh).loss_function_type = m.loss_function_type := rfl

@[simp] theorem loss_mapNodes (m : MLPModel) (f : Nat → Nat → Node → Node) :
    (mapNodes m f).loss_function_type = m.loss_function_type := rfl

/-- The invariant behind C5: both value vectors stay in `[0, 1]`, the
output layer stays sigmoid, and the loss stays MSE. -/
def IMLInv (st : IMLState) : Prop :=
  UnitList st.input_state ∧ UnitList st.output_state ∧
  lastAct st.mlp = some ActKind.SIGMOID ∧
  st.mlp.loss_function_type = LossKind.LOSS_MSE

theorem set_input_inv (st : IMLState) (i : Nat) (v : ℝ) (h : IMLInv st) :
    IMLInv (set_input st i v) := by
  obtain ⟨hin, hout, hact, hloss⟩ := h
  unfold set_input
  split
  · exact ⟨hin, hout, hact, hloss⟩
  · exact ⟨UnitList_set _ _ _ hin (clampUnit_bounds v), hout, hact, hloss⟩

theorem set_inputsAux_inv :
    ∀ (vs : List ℝ) (st : IMLState) (i : Nat), IMLInv st → IMLInv (set_inputsAux st i vs) := by
  intro vs
  induction vs with
  | nil => intro st i h; exact h
  | cons v vs ih =>
      intro st i h
      unfold set_inputsAux
      split
      · exact ih _ _ (set_input_inv st i v h)
      · exact h

theorem trainRestored_inv (st : IMLState) (h : IMLInv st) : IMLInv (trainRestored st) := by
  obtain ⟨hin, hout, hact, hloss⟩ := h
  unfold trainRestored
  split
  · exact ⟨hin, hout, by simpa using hact, by simpa using hloss⟩
  · exact ⟨hin, hout, hact, hloss⟩

theorem trainCore_inv (f : TrainOracle) (st : IMLState) (h : IMLInv st) :
    IMLInv (trainCore f st) := by
  obtain ⟨hin, hout, hact, hloss⟩ := h
  unfold trainCore
  split
  · exact ⟨hin, hout, hact, hloss⟩
  · refine ⟨hin, ?_, by simpa using hact, by simpa using hloss⟩
    exact runInference_unit _ _ _ (by simpa using hact) (by simpa using hloss)

theorem trainIML_inv (f : TrainOracle) (st : IMLState) (h : IMLInv st) :
    IMLInv (trainIML f st) :=
  trainCore_inv f _ (trainRestored_inv st h)

theorem stepOp_inv (st : IMLState) (op : IMLOp) (h : IMLInv st) : IMLInv (stepOp st op) := by
  obtain ⟨hin, hout, hact, hloss⟩ := h
  cases op with
  | setInput i v => exact set_input_inv st i v ⟨hin, hout, hact, hloss⟩
  | setInputs vs => exact set_inputsAux_inv vs st 0 ⟨hin, hout, hact, hloss⟩
  | setOutput j v =>
      exact ⟨hin, UnitList_set _ _ _ hout (clampUnit_bounds v), hact, hloss⟩
  | procOp =>
      show IMLInv (process st)
      unfold process
      split
      · exact ⟨hin, hout, hact, hloss⟩
      · exact ⟨hin, runInference_unit _ _ _ hact hloss, hact, hloss⟩
  | saveExample d =>
      show IMLInv (save_example st d)
      unfold save_example
      split
      · exact ⟨hin, hout, hact, hloss⟩
      · exact ⟨hin, runInference_unit _ _ _ hact hloss, hact, hloss⟩
  | setModeOp f m =>
      show IMLInv (set_mode f m st)
      have h1 : IMLInv (if m = Mode.Inference ∧ st.mode = Mode.Training
          then trainIML f st else st) := by
        split
        · exact trainIML_inv f st ⟨hin, hout, hact, hloss⟩
        · exact ⟨hin, hout, hact, hloss⟩
      exact ⟨h1.1, h1.2.1, h1.2.2.1, h1.2.2.2⟩
  | clearData =>
      show IMLInv (clear_dataset st)
      unfold clear_dataset
      split
      · exact ⟨hin, hout, hact, hloss⟩
      · exact ⟨hin, hout, hact, hloss⟩
  | randomise fr =>
      show IMLInv (randomise_weights st fr)
      unfold randomise_weights
      split
      · refine ⟨hin, ?_, by simpa using hact, by simpa using hloss⟩
        exact runInference_unit _ _ _ (by simpa using hact) (by simpa using hloss)
      · exact ⟨hin, hout, hact, hloss⟩

theorem getLast?_act_cons_of_ne {l : List LayerModel} (a : LayerModel) (h : l ≠ []) :
    (a :: l).getLast?.map (fun L => L.activation) =
      l.getLast?.map (fun L => L.activation) := by
  cases l with
  | nil => exact absurd rfl h
  | cons b l => rw [List.getLast?_cons_cons]

theorem buildLayers_ne_nil (w0 : Nat → Nat → Nat → ℝ) (hidden : List Nat)
    (n prev n_out : Nat) :
    buildLayers w0 n prev (hidden ++ [n_out])
      (hidden.map (fun _ => ActKind.RELU) ++ [ActKind.SIGMOID]) ≠ [] := by
  cases hidden <;> simp [buildLayers]

theorem buildLayers_lastAct (w0 : Nat → Nat → Nat → ℝ) :
    ∀ (hidden : List Nat) (n prev n_out : Nat),
      (buildLayers w0 n prev (hidden ++ [n_out])
        (hidden.map (fun _ => ActKind.RELU) ++ [ActKind.SIGMOID])).getLast?.map
          (fun L => L.activation) = some ActKind.SIGMOID := by
  intro hidden
  induction hidden with
  | nil =>
      intro n prev n_out
      simp [buildLayers, mkLayer]
  | cons hsz hidden ih =>
      intro n prev n_out
      simp only [List.cons_append, List.map_cons, buildLayers, List.append_eq]
      rw [getLast?_act_cons_of_ne _ (buildLayers_ne_nil w0 hidden (n + 1) hsz n_out)]
      exact ih (n + 1) hsz n_out

theorem initIML_inv (w0 : Nat → Nat → Nat → ℝ) (n_inputs n_outputs : Nat)
    (hidden : List Nat) (mi : Nat) (lr ct : ℝ) :
    IMLInv (initIML w0 n_inputs n_outputs hidden mi lr ct) := by
  refine ⟨?_, ?_, ?_, rfl⟩
  · intro y hy
    simp only [initIML, List.mem_replicate] at hy
    rw [hy.2]
    norm_num
  · intro y hy
    simp only [initIML, List.mem_replicate] at hy
    rw [hy.2]
    norm_num
  · exact buildLayers_lastAct w0 hidden 0 (n_inputs + 1) n_outputs

theorem runOps_inv (ops : List IMLOp) : ∀ st, IMLInv st → IMLInv (runOps st ops) := by
  induction ops with
  | nil => intro st h; exact h
  | cons op ops ih => intro st h; exact ih _ (stepOp_inv st op h)

/-- C5: for every sequence of public IML operations starting from
construction, every entry of `input_state` and of `output_state` stays
in `[0, 1]`: inputs are clamped on ingress and every write to
`output_state` is the image of the sigmoid output layer (or the
zero-initialised buffer of a vetoed forward pass). -/
theorem C5_values_in_unit_interval (w0 : Nat → Nat → Nat → ℝ)
    (n_inputs n_outputs : Nat) (hidden : List Nat) (mi : Nat) (lr ct : ℝ)
    (ops : List IMLOp) (i : Nat) :
    (0 ≤ (runOps (initIML w0 n_inputs n_outputs hidden mi lr ct) ops).input_state.getD i 0 ∧
      (runOps (initIML w0 n_inputs n_outputs hidden mi lr ct) ops).input_state.getD i 0 ≤ 1) ∧
    (0 ≤ (runOps (initIML w0 n_inputs n_outputs hidden mi lr ct) ops).output_state.getD i 0 ∧
      (runOps (initIML w0 n_inputs n_outputs hidden mi lr ct) ops).output_state.getD i 0
        ≤ 1) := by
  have h := runOps_inv ops _ (initIML_inv w0 n_inputs n_outputs hidden mi lr ct)
  exact ⟨UnitList_getD _ h.1 i, UnitList_getD _ h.2.1 i⟩

end Nisps
